import Mathlib

/-!
Shallow embedding of the dj-track-id chunk-scheduling, caching and
aggregation engine (src/chunker.py, src/store.py, src/shazam_recognizer.py,
src/pipeline.py), together with theorems settling the frozen claims.

Python floats are modelled as rationals, Python ints as Lean integers or
naturals, Python dicts holding oracle responses as explicit structures, and
fallible calls as Except values.  Stateful code (the sqlite cache, the
per-run aggregation dict) is modelled by explicit state passing.
-/

namespace DJTrack

/-! ### chunker.py -/

/-- Loop body of build_chunks (chunker.py lines 26-35).  The source computes
step = max(1, chunk_sec - overlap_sec) once before the loop; the loop
repeatedly tests t < duration, forms d = min(chunk_sec, max(0.0, duration - t)),
breaks when d <= 1.0, otherwise emits (t, d) and advances t by step.  The
while loop is modelled by structural recursion on a fuel counter; since t
advances by step >= 1 each iteration, any fuel of at least duration - t
iterations suffices, and buildChunksLoop_fuel_stable below shows the result
is the same for every sufficient fuel, so the model does not depend on the
particular bound chosen in build_chunks. -/
def buildChunksLoop (duration : ℚ) (chunk_sec overlap_sec : ℤ) :
    ℕ → ℚ → List (ℚ × ℚ)
  | 0, _ => []
  | fuel + 1, t =>
    if t < duration then
      let d : ℚ := min (chunk_sec : ℚ) (max 0 (duration - t))
      if d ≤ 1 then []
      else
        (t, d) ::
          buildChunksLoop duration chunk_sec overlap_sec fuel
            (t + ((max 1 (chunk_sec - overlap_sec) : ℤ) : ℚ))
    else []

/-- build_chunks (chunker.py lines 21-35): plan the (start_sec, dur_sec)
windows for a given probed duration. -/
def build_chunks (duration : ℚ) (chunk_sec overlap_sec : ℤ) : List (ℚ × ℚ) :=
  buildChunksLoop duration chunk_sec overlap_sec (⌈duration⌉.toNat + 1) 0

/-! ### shazam_recognizer.py field extraction -/

/-- A JSON value sitting in a Shazam response field, as far as the extraction
heuristics care: a numeric value (Python int or float) or anything else. -/
inductive JVal where
  | num (v : ℚ)
  | nonNum
deriving DecidableEq

/-- The track object of a Shazam response dict.  Only the fields consulted by
the extraction heuristics are modelled; each is optional because the wire
shape is not fixed. -/
structure ShTrack where
  key : Option String
  id : Option String
  shazam_id : Option String
  shazamID : Option String
  title : Option String
  subtitle : Option String
  artist : Option String
  confidence : Option JVal
  score : Option JVal
  probability : Option JVal
deriving DecidableEq

/-- A raw Shazam response dict.  recognize_file only ever returns dicts that
contain a "track" entry, but the extraction helpers tolerate its absence
(`track = resp.get("track")`; a missing or falsy track yields the
no-information answer), so the field stays optional here. -/
structure ShResp where
  track : Option ShTrack
deriving DecidableEq

/-- Python truthiness filter for an optional string value: None and the empty
string are falsy, everything else is truthy. -/
def pyTruthyStr (v : Option String) : Option String :=
  match v with
  | none => none
  | some s => if s.isEmpty then none else some s

/-- First truthy value among a list of candidate fields, mirroring
`for k in [...]: v = track.get(k); if v: return str(v)`. -/
def firstTruthy : List (Option String) → Option String
  | [] => none
  | v :: vs =>
    match pyTruthyStr v with
    | some s => some s
    | none => firstTruthy vs

/-- extract_track_id (shazam_recognizer.py lines 4-17). -/
def extract_track_id (r : ShResp) : Option String :=
  match r.track with
  | none => none
  | some t => firstTruthy [t.key, t.id, t.shazam_id, t.shazamID]

/-- Python `a or b` on optional strings: yields a when a is truthy, else b
unchanged (even when b is falsy). -/
def pyOrStr (a b : Option String) : Option String :=
  match pyTruthyStr a with
  | some s => some s
  | none => b

/-- extract_artist_title (shazam_recognizer.py lines 19-31): returns
(artist, title) where artist = subtitle or artist-field and title is taken
as-is. -/
def extract_artist_title (r : ShResp) : Option String × Option String :=
  match r.track with
  | none => (none, none)
  | some t => (pyOrStr t.subtitle t.artist, t.title)

/-- First numeric value among the confidence candidate fields, mirroring the
isinstance(v, (int, float)) scan of extract_confidence. -/
def firstNum : List (Option JVal) → Option ℚ
  | [] => none
  | v :: vs =>
    match v with
    | some (JVal.num q) => some q
    | _ => firstNum vs

/-- extract_confidence (shazam_recognizer.py lines 33-49): the first numeric
candidate v is normalized by v/100 when 1 < v <= 100, otherwise returned
as-is; absence of any numeric candidate yields None. -/
def extract_confidence (r : ShResp) : Option ℚ :=
  match r.track with
  | none => none
  | some t =>
    (firstNum [t.confidence, t.score, t.probability]).map
      (fun v => if 1 < v ∧ v ≤ 100 then v / 100 else v)

/-! ### store.py -/

/-- The sqlite chunk_cache table (store.py SCHEMA): one row per chunk_key,
with a nullable shazam_json column.  The created_utc column plays no role in
any behavior and is omitted; the serialized JSON text is modelled by the
response value itself (json.dumps/json.loads round-trip), with NULL modelled
by none.  put_chunk stores NULL exactly when the stored object is falsy,
which for recognizer outputs means None. -/
abbrev ChunkTable (α : Type) : Type := List (α × Option ShResp)

/-- SELECT shazam_json FROM chunk_cache WHERE chunk_key = k: none when no row
exists, some c when a row exists with (nullable) payload column c. -/
def getRow {α : Type} [DecidableEq α] (tbl : ChunkTable α) (k : α) :
    Option (Option ShResp) :=
  match tbl with
  | [] => none
  | (k', v) :: rest => if k' = k then some v else getRow rest k

/-- Store.get_chunk (store.py lines 27-33): returns None both when no row
exists (`not row`) and when the row's payload column is NULL/falsy
(`not row[0]`); otherwise deserializes the payload. -/
def get_chunk {α : Type} [DecidableEq α] (tbl : ChunkTable α) (k : α) :
    Option ShResp :=
  match getRow tbl k with
  | none => none
  | some none => none
  | some (some r) => some r

/-- Store.put_chunk (store.py lines 35-41): INSERT OR REPLACE of the row for
chunk_key, serializing a falsy object (None) as NULL. -/
def put_chunk {α : Type} [DecidableEq α] (tbl : ChunkTable α) (k : α)
    (obj : Option ShResp) : ChunkTable α :=
  match tbl with
  | [] => [(k, obj)]
  | (k', v) :: rest =>
    if k' = k then (k, obj) :: rest else (k', v) :: put_chunk rest k obj

/-! ### pipeline.py aggregation state -/

/-- TrackAgg (pipeline.py lines 25-33). -/
structure TrackAgg where
  shazam_track_id : String
  artist : String
  title : String
  confidence_max : ℚ
  support : ℕ
  first_seen_sec : ℚ
  last_seen_sec : ℚ
deriving DecidableEq

/-- Lookup in the tracks dict (`tracks.get(tid)`), modelled as an assoc list
kept in insertion order, as Python dicts are. -/
def lookupAgg (tracks : List (String × TrackAgg)) (tid : String) :
    Option TrackAgg :=
  match tracks with
  | [] => none
  | (k, a) :: rest => if k = tid then some a else lookupAgg rest tid

/-- In-place mutation of the aggregate stored under tid (Python mutates the
dict value object, leaving insertion order unchanged). -/
def setAgg (tracks : List (String × TrackAgg)) (tid : String) (a : TrackAgg) :
    List (String × TrackAgg) :=
  match tracks with
  | [] => []
  | (k, b) :: rest =>
    if k = tid then (k, a) :: rest else (k, b) :: setAgg rest tid a

/-- The per-match aggregation update of process_one (pipeline.py lines
95-118): create or fold the aggregate for tid, then re-read tracks[tid] and
fold in the derived confidence min(1.0, support / 3.0). -/
def updateAgg (tracks : List (String × TrackAgg)) (tid artist title : String)
    (raw_conf : Option ℚ) (start : ℚ) : List (String × TrackAgg) :=
  let tracks' :=
    match lookupAgg tracks tid with
    | none =>
      let base : ℚ := match raw_conf with | some c => c | none => 0
      tracks ++ [(tid,
        { shazam_track_id := tid, artist := artist, title := title,
          confidence_max := base, support := 1,
          first_seen_sec := start, last_seen_sec := start })]
    | some agg =>
      setAgg tracks tid
        { agg with
          support := agg.support + 1,
          first_seen_sec := min agg.first_seen_sec start,
          last_seen_sec := max agg.last_seen_sec start,
          confidence_max :=
            match raw_conf with
            | some c => max agg.confidence_max c
            | none => agg.confidence_max }
  match lookupAgg tracks' tid with
  | some agg2 =>
    setAgg tracks' tid
      { agg2 with
        confidence_max :=
          max agg2.confidence_max (min 1 ((agg2.support : ℚ) / 3)) }
  | none => tracks'

/-- The aggregation tail of process_one (pipeline.py lines 85-118): a None
result is discarded; a result lacking a truthy track id, artist or title is
discarded; otherwise the aggregate for the extracted track id is updated. -/
def applyResp (tracks : List (String × TrackAgg)) (start : ℚ)
    (resp : Option ShResp) : List (String × TrackAgg) :=
  match resp with
  | none => tracks
  | some r =>
    match pyTruthyStr (extract_track_id r),
        pyTruthyStr (extract_artist_title r).1,
        pyTruthyStr (extract_artist_title r).2 with
    | some tid, some artist, some title =>
      updateAgg tracks tid artist title (extract_confidence r) start
    | _, _, _ => tracks

/-! ### pipeline.py: chunk keys and the per-window procedure -/

/-- The chunk cache key (pipeline.py line 73):
f"{src_hash}:{start:.2f}:{dur:.2f}:{sample_rate}".  The %.2f rendering is
modelled by the centisecond integers round(start*100) and round(dur*100);
the hex src_hash contains no colon, so the rendering is injective and the
structured quadruple is a faithful model of the key string. -/
structure ChunkKey where
  src_hash : String
  start_cs : ℤ
  dur_cs : ℤ
  sample_rate : ℤ
deriving DecidableEq

/-- Key construction for a window. -/
def chunkKey (src_hash : String) (sample_rate : ℤ) (start dur : ℚ) :
    ChunkKey :=
  { src_hash := src_hash, start_cs := round (start * 100),
    dur_cs := round (dur * 100), sample_rate := sample_rate }

/-- The external world seen by one window's task: what the recognizer returns
for its audio slice (None = oracle found nothing or the gateway swallowed a
failure), and whether the ffmpeg extraction and the two sqlite operations
succeed.  The source wraps none of these in try/except inside process_one,
so a raised error propagates out of the task. -/
structure WindowWorld where
  oracle : Option ShResp
  extract_ok : Bool
  get_ok : Bool
  put_ok : Bool
deriving DecidableEq

/-- Mutable run state threaded through the windows: the sqlite cache table,
the number of recognizer invocations so far, and the tracks dict. -/
structure RunState where
  store : ChunkTable ChunkKey
  oracle_calls : ℕ
  tracks : List (String × TrackAgg)
deriving DecidableEq

/-- process_one (pipeline.py lines 72-118): compute the chunk key, consult
the cache, and on a miss extract the wav slice, call the recognizer (under
the semaphore) and write the cache, then aggregate.  sqlite and ffmpeg
failures are uncaught in the source and surface as Except.error here. -/
def process_one (src_hash : String) (sample_rate : ℤ) (w : WindowWorld)
    (start dur : ℚ) (st : RunState) : Except String RunState :=
  let key := chunkKey src_hash sample_rate start dur
  if !w.get_ok then Except.error "store.get_chunk: sqlite error" else
  match get_chunk st.store key with
  | none =>
    if !w.extract_ok then Except.error "extract_chunk_wav: ffmpeg failed" else
    let resp := w.oracle
    let st1 : RunState :=
      { st with oracle_calls := st.oracle_calls + 1 }
    if !w.put_ok then Except.error "store.put_chunk: sqlite error" else
    let st2 : RunState :=
      { st1 with store := put_chunk st1.store key resp }
    Except.ok { st2 with tracks := applyResp st2.tracks start resp }
  | some r =>
    Except.ok { st with tracks := applyResp st.tracks start (some r) }

/-- The window loop of run_pipeline (lines 130-134), modelled sequentially:
asyncio.gather propagates the first exception of a batch out of
run_pipeline, so an error in any window aborts the run before the report is
written; completion-order effects on aggregation are covered separately by
the permutation-invariance development. -/
def run_windows (src_hash : String) (sample_rate : ℤ)
    (items : List ((ℚ × ℚ) × WindowWorld)) (st : RunState) :
    Except String RunState :=
  match items with
  | [] => Except.ok st
  | ((start, dur), w) :: rest =>
    match process_one src_hash sample_rate w start dur st with
    | Except.error e => Except.error e
    | Except.ok st' => run_windows src_hash sample_rate rest st'

/-! ### pipeline.py: report rows and the final sort -/

/-- One row of results.json / results.csv (pipeline.py lines 138-148). -/
structure ReportRow where
  artist : String
  title : String
  shazam_track_id : String
  confidence : ℚ
  support : ℕ
  first_seen_sec : ℤ
  last_seen_sec : ℤ
  video_id : String
  source_audio : String
deriving DecidableEq

/-- Python round(x, 3), modelled as decimal rounding of the rational. -/
def round3 (q : ℚ) : ℚ := ((round (q * 1000) : ℤ) : ℚ) / 1000

/-- Python int() on a float: truncation toward zero. -/
def pyInt (q : ℚ) : ℤ := if 0 ≤ q then ⌊q⌋ else ⌈q⌉

/-- The sort key of line 137, negated for ascending comparison:
key kv = (-confidence_max, -support). -/
def rowKey (p : String × TrackAgg) : ℚ × ℕ :=
  (p.2.confidence_max, p.2.support)

/-- Ascending comparison of the negated keys: a may precede b iff
(-a.conf, -a.support) lexicographically precedes-or-equals (-b.conf,
-b.support), i.e. confidence descending, then support descending. -/
def keyLE (a b : ℚ × ℕ) : Bool :=
  decide (b.1 < a.1) || (decide (a.1 = b.1) && decide (b.2 ≤ a.2))

/-- Comparison on dict entries. -/
def aggLE (a b : String × TrackAgg) : Bool := keyLE (rowKey a) (rowKey b)

/-- Insert a into an already sorted list, after every element that may
precede it: the insertion point of a stable sort. -/
def insertIntoSorted {α : Type} (le : α → α → Bool) (a : α) :
    List α → List α
  | [] => [a]
  | x :: xs =>
    if le x a then x :: insertIntoSorted le a xs else a :: x :: xs

/-- Stable sort by successive insertion.  Python's sorted() is specified as
a stable sort; a stable sort's output is uniquely determined by the input
and the (total, transitive) comparison, and the theorems below establish
exactly the three characterizing properties (permutation, sortedness,
stability), so this embedding is extensionally the built-in sorted(). -/
def stableSort {α : Type} (le : α → α → Bool) (l : List α) : List α :=
  l.foldl (fun acc a => insertIntoSorted le a acc) []

/-- sorted(tracks.items(), key=lambda kv: (-confidence_max, -support))
(pipeline.py line 137). -/
def sortTracks (tracks : List (String × TrackAgg)) :
    List (String × TrackAgg) :=
  stableSort aggLE tracks

/-- Report construction (pipeline.py lines 136-148). -/
def buildRows (video_id source_audio : String)
    (tracks : List (String × TrackAgg)) : List ReportRow :=
  (sortTracks tracks).map fun p =>
    { artist := p.2.artist, title := p.2.title,
      shazam_track_id := p.2.shazam_track_id,
      confidence := round3 p.2.confidence_max, support := p.2.support,
      first_seen_sec := pyInt p.2.first_seen_sec,
      last_seen_sec := pyInt p.2.last_seen_sec,
      video_id := video_id, source_audio := source_audio }

/-- run_pipeline (pipeline.py lines 48-178), restricted to the specified
engine: run every planned window against the cache and recognizer, then
emit the report rows; the resulting cache table and the number of oracle
calls are exposed for the caching claims. -/
def run_pipeline (video_id source_audio src_hash : String) (sample_rate : ℤ)
    (items : List ((ℚ × ℚ) × WindowWorld)) (store0 : ChunkTable ChunkKey) :
    Except String (List ReportRow × ChunkTable ChunkKey × ℕ) :=
  match run_windows src_hash sample_rate items
      { store := store0, oracle_calls := 0, tracks := [] } with
  | Except.error e => Except.error e
  | Except.ok st =>
    Except.ok (buildRows video_id source_audio st.tracks, st.store,
      st.oracle_calls)

/-! ### Concurrency model of the scheduler

run_pipeline creates one coroutine per window (line 130) and a single
asyncio.Semaphore(max_parallel) (line 68).  Inside process_one, only the
`async with sem: resp = await recognizer.recognize_file(...)` block (lines
80-81) touches the semaphore: the cache lookup (line 75) and the wav
extraction (line 78) run before it, outside the gate.  Each task is modelled
by its control point in process_one; the interleaving of tasks is a
nondeterministic step relation, and the semaphore by its available-permit
counter. -/

/-- Control points of one window task relative to the semaphore. -/
inductive Stage where
  | look
  | mat
  | wait
  | oracle
  | done
deriving DecidableEq

/-- Global scheduler state: the control point of every task and the number
of available semaphore permits. -/
structure Sched where
  tasks : List Stage
  avail : ℕ
deriving DecidableEq

/-- Number of tasks currently inside the semaphore-guarded oracle call. -/
def countOracle (ts : List Stage) : ℕ :=
  ts.countP (fun s => s == Stage.oracle)

/-- One interleaving step.  A task at its cache lookup either hits (and
finishes without the oracle) or misses and goes on to materialize its wav
slice; a materialized task waits on the semaphore; acquiring needs a free
permit and enters the oracle call; finishing the oracle call releases the
permit.  Lookup and materialization neither need nor change permits. -/
inductive SchedStep : Sched → Sched → Prop where
  | cacheHit (s : Sched) (i : ℕ) (h : s.tasks.get? i = some Stage.look) :
      SchedStep s { tasks := s.tasks.set i Stage.done, avail := s.avail }
  | cacheMiss (s : Sched) (i : ℕ) (h : s.tasks.get? i = some Stage.look) :
      SchedStep s { tasks := s.tasks.set i Stage.mat, avail := s.avail }
  | materialized (s : Sched) (i : ℕ) (h : s.tasks.get? i = some Stage.mat) :
      SchedStep s { tasks := s.tasks.set i Stage.wait, avail := s.avail }
  | acquire (s : Sched) (i : ℕ) (h : s.tasks.get? i = some Stage.wait)
      (ha : 0 < s.avail) :
      SchedStep s { tasks := s.tasks.set i Stage.oracle, avail := s.avail - 1 }
  | finish (s : Sched) (i : ℕ) (h : s.tasks.get? i = some Stage.oracle) :
      SchedStep s { tasks := s.tasks.set i Stage.done, avail := s.avail + 1 }

/-- Initial state of a run: every window task at its cache lookup, all
max_parallel permits free.  (Tasks are launched in batches of 40 for
progress reporting, which only restricts the reachable interleavings and so
cannot increase the oracle-call count.) -/
def initSched (limit n : ℕ) : Sched :=
  { tasks := List.replicate n Stage.look, avail := limit }

/-- States reachable during a run with n windows and max_parallel limit. -/
def SchedReachable (limit n : ℕ) (s : Sched) : Prop :=
  Relation.ReflTransGen SchedStep (initSched limit n) s

/-- Decidable equality on Except values, for concrete evaluation of run
outcomes. -/
instance {ε α : Type} [DecidableEq ε] [DecidableEq α] :
    DecidableEq (Except ε α) := fun a b =>
  match a, b with
  | Except.error e, Except.error f =>
    if h : e = f then isTrue (by rw [h])
    else isFalse (by intro hc; cases hc; exact h rfl)
  | Except.error _, Except.ok _ => isFalse (by intro hc; cases hc)
  | Except.ok _, Except.error _ => isFalse (by intro hc; cases hc)
  | Except.ok x, Except.ok y =>
    if h : x = y then isTrue (by rw [h])
    else isFalse (by intro hc; cases hc; exact h rfl)

/-! ## Window planner lemmas (claim C7) -/

/-- The loop step is at least one second. -/
theorem one_le_step (chunk_sec overlap_sec : ℤ) :
    (1 : ℚ) ≤ ((max 1 (chunk_sec - overlap_sec) : ℤ) : ℚ) := by
  exact_mod_cast le_max_left 1 (chunk_sec - overlap_sec)

/-- The fuel counter is irrelevant as soon as it dominates the remaining
span: the fuel-based loop is a faithful model of the source's while loop,
whose iteration count is bounded by duration - t because t advances by at
least 1 per iteration. -/
theorem buildChunksLoop_fuel_stable (duration : ℚ) (chunk_sec overlap_sec : ℤ) :
    ∀ (f₁ f₂ : ℕ) (t : ℚ), duration - t ≤ (f₁ : ℚ) → duration - t ≤ (f₂ : ℚ) →
      buildChunksLoop duration chunk_sec overlap_sec f₁ t =
        buildChunksLoop duration chunk_sec overlap_sec f₂ t := by
  intro f₁
  induction f₁ with
  | zero =>
    intro f₂ t h₁ h₂
    have hlt : ¬ t < duration := by push_cast at h₁; intro hc; linarith
    cases f₂ with
    | zero => rfl
    | succ g₂ => simp only [buildChunksLoop, if_neg hlt]
  | succ g₁ ih =>
    intro f₂ t h₁ h₂
    cases f₂ with
    | zero =>
      have hlt : ¬ t < duration := by push_cast at h₂; intro hc; linarith
      simp only [buildChunksLoop, if_neg hlt]
    | succ g₂ =>
      by_cases hlt : t < duration
      · simp only [buildChunksLoop, if_pos hlt]
        by_cases hd : min ((chunk_sec : ℚ)) (max 0 (duration - t)) ≤ 1
        · simp only [if_pos hd]
        · simp only [if_neg hd, List.cons.injEq, true_and]
          apply ih
          · have hs := one_le_step chunk_sec overlap_sec
            push_cast at hs h₁ ⊢
            linarith
          · have hs := one_le_step chunk_sec overlap_sec
            push_cast at hs h₂ ⊢
            linarith
      · simp only [buildChunksLoop, if_neg hlt]

/-- Every window emitted by the loop starts no earlier than the loop
variable. -/
theorem buildChunksLoop_start_le (duration : ℚ) (chunk_sec overlap_sec : ℤ) :
    ∀ (fuel : ℕ) (t : ℚ),
      ∀ p ∈ buildChunksLoop duration chunk_sec overlap_sec fuel t, t ≤ p.1 := by
  intro fuel
  induction fuel with
  | zero => intro t p hp; exact absurd hp (List.not_mem_nil p)
  | succ g ih =>
    intro t p hp
    by_cases hlt : t < duration
    · simp only [buildChunksLoop, if_pos hlt] at hp
      by_cases hd : min ((chunk_sec : ℚ)) (max 0 (duration - t)) ≤ 1
      · rw [if_pos hd] at hp
        exact absurd hp (List.not_mem_nil p)
      · rw [if_neg hd] at hp
        rcases List.mem_cons.mp hp with hp | hp
        · rw [hp]
        · have h1 := ih _ p hp
          have h2 := one_le_step chunk_sec overlap_sec
          linarith
    · simp only [buildChunksLoop, if_neg hlt] at hp
      exact absurd hp (List.not_mem_nil p)

/-- Window starts are strictly increasing along the loop output. -/
theorem buildChunksLoop_pairwise (duration : ℚ) (chunk_sec overlap_sec : ℤ) :
    ∀ (fuel : ℕ) (t : ℚ),
      (buildChunksLoop duration chunk_sec overlap_sec fuel t).Pairwise
        (fun a b => a.1 < b.1) := by
  intro fuel
  induction fuel with
  | zero => intro t; exact List.Pairwise.nil
  | succ g ih =>
    intro t
    by_cases hlt : t < duration
    · simp only [buildChunksLoop, if_pos hlt]
      by_cases hd : min ((chunk_sec : ℚ)) (max 0 (duration - t)) ≤ 1
      · rw [if_pos hd]
        exact List.Pairwise.nil
      · rw [if_neg hd]
        refine List.Pairwise.cons ?_ (ih _)
        intro p hp
        have h1 := buildChunksLoop_start_le duration chunk_sec overlap_sec g _ p hp
        have h2 := one_le_step chunk_sec overlap_sec
        show t < p.1
        linarith
    · simp only [buildChunksLoop, if_neg hlt]
      exact List.Pairwise.nil

/-- Emitted window lengths are bounded by chunk_sec and strictly above the
one-second minimum. -/
theorem buildChunksLoop_length_bounds (duration : ℚ)
    (chunk_sec overlap_sec : ℤ) :
    ∀ (fuel : ℕ) (t : ℚ),
      ∀ p ∈ buildChunksLoop duration chunk_sec overlap_sec fuel t,
        p.2 ≤ (chunk_sec : ℚ) ∧ 1 < p.2 := by
  intro fuel
  induction fuel with
  | zero => intro t p hp; exact absurd hp (List.not_mem_nil p)
  | succ g ih =>
    intro t p hp
    by_cases hlt : t < duration
    · simp only [buildChunksLoop, if_pos hlt] at hp
      by_cases hd : min ((chunk_sec : ℚ)) (max 0 (duration - t)) ≤ 1
      · rw [if_pos hd] at hp
        exact absurd hp (List.not_mem_nil p)
      · rw [if_neg hd] at hp
        rcases List.mem_cons.mp hp with hp | hp
        · rw [hp]
          exact ⟨min_le_left _ _, lt_of_not_le hd⟩
        · exact ih _ p hp
    · simp only [buildChunksLoop, if_neg hlt] at hp
      exact absurd hp (List.not_mem_nil p)

/-- C7: for every duration at most 1 second the planner returns the empty
sequence, and in general the emitted windows have strictly increasing
starts, lengths at most chunk_sec, and no emitted window is shorter than
1 second. -/
theorem C7_window_planner (duration : ℚ) (chunk_sec overlap_sec : ℤ) :
    (duration ≤ 1 → build_chunks duration chunk_sec overlap_sec = []) ∧
    (build_chunks duration chunk_sec overlap_sec).Pairwise
      (fun a b => a.1 < b.1) ∧
    (∀ p ∈ build_chunks duration chunk_sec overlap_sec,
      p.2 ≤ (chunk_sec : ℚ) ∧ ¬ p.2 < 1) := by
  refine ⟨?_, buildChunksLoop_pairwise _ _ _ _ _, ?_⟩
  · intro hdur
    rw [build_chunks]
    by_cases hlt : (0 : ℚ) < duration
    · have hd : min ((chunk_sec : ℚ)) (max 0 (duration - 0)) ≤ 1 := by
        have hmax : max (0 : ℚ) (duration - 0) ≤ 1 := by
          apply max_le <;> linarith
        exact le_trans (min_le_right _ _) hmax
      simp only [buildChunksLoop, if_pos hlt, if_pos hd]
    · simp only [buildChunksLoop, if_neg hlt]
  · intro p hp
    have hb := buildChunksLoop_length_bounds duration chunk_sec overlap_sec _ 0 p hp
    exact ⟨hb.1, not_lt.mpr (le_of_lt hb.2)⟩

/-- Concrete instance of the planner claim: a one-second recording plans no
windows. -/
theorem C7_window_planner_witness : build_chunks 1 30 10 = [] :=
  (C7_window_planner 1 30 10).1 le_rfl

/-! ## Confidence extraction (claim C9) -/

/-- A track object carrying only a confidence field, used for concrete
confidence-extraction instances. -/
def mkConfTrack (c : Option JVal) : ShTrack :=
  { key := none, id := none, shazam_id := none, shazamID := none,
    title := none, subtitle := none, artist := none,
    confidence := c, score := none, probability := none }

/-- C9 counterexample: an oracle response whose confidence figure is 200
is returned unchanged by extract_confidence (200 is outside the 1 < v <= 100
normalization window), so the extracted value does not lie in [0, 1] as the
claim asserts of every numeric figure. -/
theorem C9_counterexample :
    extract_confidence
      { track := some (mkConfTrack (some (JVal.num 200))) } =
        some 200 ∧ ¬ ((200 : ℚ) ≤ 1) := by
  constructor
  · norm_num [extract_confidence, firstNum, mkConfTrack]
  · norm_num

/-- C9 as amended: the first numeric figure v among the candidate fields is
extracted as v/100 when 1 < v <= 100 and as v unchanged otherwise; the
extracted value lies in [0, 1] whenever the raw figure lies in [0, 100];
and the absence of any numeric figure propagates as None, not zero. -/
theorem C9_confidence_amended (t : ShTrack) (v : ℚ)
    (h : firstNum [t.confidence, t.score, t.probability] = some v) :
    extract_confidence { track := some t } =
      some (if 1 < v ∧ v ≤ 100 then v / 100 else v) ∧
    (0 ≤ v → v ≤ 100 →
      ∀ w, extract_confidence { track := some t } = some w →
        0 ≤ w ∧ w ≤ 1) ∧
    (∀ u : ShTrack, firstNum [u.confidence, u.score, u.probability] = none →
      extract_confidence { track := some u } = none) := by
  refine ⟨?_, ?_, ?_⟩
  · simp [extract_confidence, h]
  · intro h0 h100 w hw
    simp [extract_confidence, h] at hw
    by_cases h1 : 1 < v
    · rw [if_pos ⟨h1, h100⟩] at hw
      constructor
      · rw [← hw]; positivity
      · rw [← hw]
        rw [div_le_one (by norm_num)]
        linarith
    · rw [if_neg (by tauto)] at hw
      exact ⟨hw ▸ h0, hw ▸ (le_of_not_lt h1)⟩
  · intro u hu
    simp [extract_confidence, hu]

/-- Concrete instance of the amended confidence claim: a figure of 50 is
normalized to 50/100. -/
theorem C9_confidence_amended_witness :
    extract_confidence
      { track := some (mkConfTrack (some (JVal.num 50))) } =
      some (if 1 < (50 : ℚ) ∧ (50 : ℚ) ≤ 100 then 50 / 100 else 50) :=
  (C9_confidence_amended (mkConfTrack (some (JVal.num 50))) 50 rfl).1

/-! ## Cache get/put semantics (claims C2, C4) -/

/-- The freshly written row is visible to the SELECT. -/
theorem getRow_put_chunk_self {α : Type} [DecidableEq α]
    (tbl : ChunkTable α) (k : α) (obj : Option ShResp) :
    getRow (put_chunk tbl k obj) k = some obj := by
  induction tbl with
  | nil => simp [put_chunk, getRow]
  | cons hd rest ih =>
    obtain ⟨k', v⟩ := hd
    by_cases hk : k' = k
    · simp [put_chunk, getRow, hk]
    · simp [put_chunk, getRow, hk, ih]

/-- C2: the code cannot distinguish a cached "no match" from an unwritten
key.  Writing the NULL no-match marker for a key does create a row (the
table distinguishes some none from none), but get_chunk returns None for
that row exactly as it does for an unwritten key, for every table and key;
the concrete String-keyed instance is included.  The claim's three
distinguishable outcomes do not exist at the get_chunk interface. -/
theorem C2_get_conflates_negative_and_absent :
    (∀ (tbl : ChunkTable String) (k : String),
      get_chunk (put_chunk tbl k none) k = none) ∧
    (∀ (tbl : ChunkTable String) (k : String),
      getRow (put_chunk tbl k none) k = some none) ∧
    get_chunk (put_chunk ([] : ChunkTable String) "k" none) "k" = none ∧
    get_chunk ([] : ChunkTable String) "k" = none ∧
    getRow (put_chunk ([] : ChunkTable String) "k" none) "k" = some none ∧
    getRow ([] : ChunkTable String) "k" = none := by
  refine ⟨?_, ?_, ?_, rfl, ?_, rfl⟩
  · intro tbl k
    rw [get_chunk, getRow_put_chunk_self]
  · intro tbl k
    exact getRow_put_chunk_self tbl k none
  · rw [get_chunk, getRow_put_chunk_self]
  · exact getRow_put_chunk_self [] "k" none

/-- C4 counterexample: a sqlite error during the cache lookup aborts the
run rather than degrading to a cache miss, and a sqlite error during the
cache write aborts the run rather than being swallowed, each shown on a
concrete single-window run. -/
theorem C4_counterexample :
    run_windows "h" 44100 [((0, 30), ⟨none, true, false, true⟩)]
        ⟨[], 0, []⟩ =
      Except.error "store.get_chunk: sqlite error" ∧
    run_windows "h" 44100 [((0, 30), ⟨none, true, true, false⟩)]
        ⟨[], 0, []⟩ =
      Except.error "store.put_chunk: sqlite error" := by
  constructor <;> simp [run_windows, process_one, get_chunk, getRow]

/-- C4 as amended: storage I/O errors are uncaught in Store.get_chunk and
Store.put_chunk and propagate out of the chunk task: an error during get
aborts the task (without consulting the oracle), and an error during put on
a cache miss aborts the task after the oracle call; neither is degraded or
swallowed. -/
theorem C4_storage_errors_propagate (src : String) (rate : ℤ)
    (w : WindowWorld) (start dur : ℚ) (st : RunState) :
    (w.get_ok = false →
      process_one src rate w start dur st =
        Except.error "store.get_chunk: sqlite error") ∧
    (w.get_ok = true → w.extract_ok = true → w.put_ok = false →
      get_chunk st.store (chunkKey src rate start dur) = none →
      process_one src rate w start dur st =
        Except.error "store.put_chunk: sqlite error") := by
  constructor
  · intro hget
    simp [process_one, hget]
  · intro hget hmat hput hmiss
    simp [process_one, hget, hmat, hput, hmiss]

/-- Concrete instance of the amended storage-error claim. -/
theorem C4_storage_errors_propagate_witness :
    process_one "h" 44100 ⟨none, true, false, true⟩ 0 30 ⟨[], 0, []⟩ =
      Except.error "store.get_chunk: sqlite error" ∧
    process_one "h" 44100 ⟨none, true, true, false⟩ 0 30 ⟨[], 0, []⟩ =
      Except.error "store.put_chunk: sqlite error" :=
  ⟨(C4_storage_errors_propagate "h" 44100 ⟨none, true, false, true⟩ 0 30
      ⟨[], 0, []⟩).1 rfl,
   (C4_storage_errors_propagate "h" 44100 ⟨none, true, true, false⟩ 0 30
      ⟨[], 0, []⟩).2 rfl rfl rfl rfl⟩

/-! ## Materialization failures (claim C3) -/

/-- Splitting a run at a window boundary. -/
theorem run_windows_append (src : String) (rate : ℤ)
    (l₁ l₂ : List ((ℚ × ℚ) × WindowWorld)) (st : RunState) :
    run_windows src rate (l₁ ++ l₂) st =
      match run_windows src rate l₁ st with
      | Except.error e => Except.error e
      | Except.ok st2 => run_windows src rate l₂ st2 := by
  induction l₁ generalizing st with
  | nil => simp [run_windows]
  | cons hd rest ih =>
    obtain ⟨⟨start, dur⟩, w⟩ := hd
    rw [List.cons_append, run_windows, run_windows]
    cases process_one src rate w start dur st with
    | error e => rfl
    | ok st2 => exact ih st2

/-- C3 counterexample: an ffmpeg failure while materializing the first
window's audio aborts the whole two-window run with an error: the second
window is never processed and no report is emitted, contradicting the
claim that only the failing window is skipped and a report still appears. -/
theorem C3_counterexample :
    run_pipeline "v" "a.mp3" "h" 44100
      [((0, 30), ⟨none, false, true, true⟩),
       ((20, 30), ⟨none, true, true, true⟩)] [] =
      Except.error "extract_chunk_wav: ffmpeg failed" := by
  simp [run_pipeline, run_windows, process_one, get_chunk, getRow]

/-- C3 as amended: when the audio slice of any window cannot be
materialized (on a cache miss), the error propagates out of that window's
task and run_pipeline aborts with it: later windows are not processed and
no report is emitted.  (The failing window is indeed not retried, but it
is not skipped either: it poisons the run.) -/
theorem C3_materialization_error_aborts_run (video src_audio src : String)
    (rate : ℤ) (pre post : List ((ℚ × ℚ) × WindowWorld))
    (w : (ℚ × ℚ) × WindowWorld) (store0 : ChunkTable ChunkKey)
    (st : RunState)
    (hpre : run_windows src rate pre ⟨store0, 0, []⟩ = Except.ok st)
    (hget : w.2.get_ok = true) (hmat : w.2.extract_ok = false)
    (hmiss : get_chunk st.store (chunkKey src rate w.1.1 w.1.2) = none) :
    run_pipeline video src_audio src rate (pre ++ w :: post) store0 =
      Except.error "extract_chunk_wav: ffmpeg failed" := by
  rw [run_pipeline, run_windows_append, hpre]
  obtain ⟨⟨start, dur⟩, ww⟩ := w
  simp only at hget hmat hmiss
  simp [run_windows, process_one, hget, hmat, hmiss]

/-- Concrete instance of the amended materialization claim. -/
theorem C3_materialization_error_aborts_run_witness :
    run_pipeline "v" "a.mp3" "h" 44100
      [((0, 30), ⟨none, false, true, true⟩),
       ((20, 30), ⟨none, true, true, true⟩)] [] =
      Except.error "extract_chunk_wav: ffmpeg failed" :=
  C3_materialization_error_aborts_run "v" "a.mp3" "h" 44100 []
    [((20, 30), ⟨none, true, true, true⟩)] ((0, 30), ⟨none, false, true, true⟩)
    [] ⟨[], 0, []⟩ rfl rfl rfl rfl

/-! ## Rerun behavior of the cache (claim C1) -/

/-- C1: negative cache entries are not cache hits on a rerun.  A one-window
run whose oracle finds nothing issues one oracle call and writes the NULL
no-match row; rerunning the scheduler over the same source and parameters
with that cache issues one oracle call again (the claim requires zero),
because get_chunk returns None for the NULL row and process_one treats None
as a miss.  By contrast, a key cached with a match record is a genuine hit:
a rerun over it issues zero oracle calls and leaves the store unchanged. -/
theorem C1_negative_cache_resubmitted :
    run_pipeline "v" "a.mp3" "h" 44100
        [((0, 30), ⟨none, true, true, true⟩)] [] =
      Except.ok ([], [(chunkKey "h" 44100 0 30, none)], 1) ∧
    run_pipeline "v" "a.mp3" "h" 44100
        [((0, 30), ⟨none, true, true, true⟩)]
        [(chunkKey "h" 44100 0 30, none)] =
      Except.ok ([], [(chunkKey "h" 44100 0 30, none)], 1) ∧
    (∀ r : ShResp,
      run_windows "h" 44100 [((0, 30), ⟨none, true, true, true⟩)]
          ⟨[(chunkKey "h" 44100 0 30, some r)], 0, []⟩ =
        Except.ok ⟨[(chunkKey "h" 44100 0 30, some r)], 0,
          applyResp [] 0 (some r)⟩) := by
  refine ⟨?_, ?_, ?_⟩
  · simp [run_pipeline, run_windows, process_one, get_chunk, getRow,
      put_chunk, applyResp, buildRows, sortTracks, stableSort]
  · simp [run_pipeline, run_windows, process_one, get_chunk, getRow,
      put_chunk, applyResp, buildRows, sortTracks, stableSort]
  · intro r
    simp [run_windows, process_one, get_chunk, getRow]

/-! ## Aggregator lemmas (claims C5, C10) -/

/-- Replacing the aggregate stored under a present key makes the new value
visible. -/
theorem lookupAgg_setAgg_self (tracks : List (String × TrackAgg))
    (tid : String) (a : TrackAgg) (h : (lookupAgg tracks tid).isSome) :
    lookupAgg (setAgg tracks tid a) tid = some a := by
  induction tracks with
  | nil => simp [lookupAgg] at h
  | cons hd rest ih =>
    obtain ⟨k, b⟩ := hd
    by_cases hk : k = tid
    · simp [setAgg, lookupAgg, hk]
    · simp only [lookupAgg, if_neg hk] at h
      simp [setAgg, lookupAgg, hk, ih h]

/-- Replacing the aggregate under one key leaves other keys untouched. -/
theorem lookupAgg_setAgg_ne (tracks : List (String × TrackAgg))
    (tid : String) (a : TrackAgg) (tid' : String) (h : tid' ≠ tid) :
    lookupAgg (setAgg tracks tid a) tid' = lookupAgg tracks tid' := by
  induction tracks with
  | nil => rfl
  | cons hd rest ih =>
    obtain ⟨k, b⟩ := hd
    by_cases hk : k = tid
    · subst hk
      simp [setAgg, lookupAgg, Ne.symm h]
    · simp [setAgg, lookupAgg, hk, ih]

/-- Lookup distributes over append. -/
theorem lookupAgg_append (l₁ l₂ : List (String × TrackAgg)) (k : String) :
    lookupAgg (l₁ ++ l₂) k =
      match lookupAgg l₁ k with
      | some a => some a
      | none => lookupAgg l₂ k := by
  induction l₁ with
  | nil => simp [lookupAgg]
  | cons hd rest ih =>
    obtain ⟨k', b⟩ := hd
    by_cases hk : k' = k
    · simp [lookupAgg, hk]
    · simp [lookupAgg, hk, ih]

/-- The first sighting of a track id creates its aggregate: support 1, both
seen bounds at the window start, and confidence the oracle confidence (or
0.0) with the derived confidence min(1, 1/3) folded in. -/
theorem lookupAgg_updateAgg_new (tracks : List (String × TrackAgg))
    (tid artist title : String) (raw : Option ℚ) (start : ℚ)
    (h : lookupAgg tracks tid = none) :
    lookupAgg (updateAgg tracks tid artist title raw start) tid =
      some { shazam_track_id := tid, artist := artist, title := title,
             confidence_max := max (raw.getD 0) (min 1 (1 / 3)),
             support := 1, first_seen_sec := start, last_seen_sec := start } := by
  have hmid : ∀ A : TrackAgg,
      lookupAgg (tracks ++ [(tid, A)]) tid = some A := by
    intro A
    rw [lookupAgg_append, h]
    simp [lookupAgg]
  cases raw with
  | none =>
    rw [updateAgg, h]
    simp only [hmid]
    rw [lookupAgg_setAgg_self _ _ _ (by rw [hmid]; rfl)]
    norm_num [Option.getD]
  | some c =>
    rw [updateAgg, h]
    simp only [hmid]
    rw [lookupAgg_setAgg_self _ _ _ (by rw [hmid]; rfl)]
    norm_num [Option.getD]

/-- A later sighting of a present track id increments support, folds the
window start into the seen bounds, maxes in any oracle confidence, and
folds in the derived confidence computed from the incremented support. -/
theorem lookupAgg_updateAgg_seen (tracks : List (String × TrackAgg))
    (tid artist title : String) (raw : Option ℚ) (start : ℚ) (a : TrackAgg)
    (h : lookupAgg tracks tid = some a) :
    lookupAgg (updateAgg tracks tid artist title raw start) tid =
      some { shazam_track_id := a.shazam_track_id, artist := a.artist,
             title := a.title,
             confidence_max :=
               max (max a.confidence_max (raw.getD a.confidence_max))
                 (min 1 (((a.support : ℚ) + 1) / 3)),
             support := a.support + 1,
             first_seen_sec := min a.first_seen_sec start,
             last_seen_sec := max a.last_seen_sec start } := by
  have hsome : (lookupAgg tracks tid).isSome := by rw [h]; rfl
  cases raw with
  | none =>
    rw [updateAgg, h]
    simp only [lookupAgg_setAgg_self _ _ _ hsome]
    rw [lookupAgg_setAgg_self _ _ _ (by
      rw [lookupAgg_setAgg_self _ _ _ hsome]; rfl)]
    simp [Option.getD, max_self]
  | some c =>
    rw [updateAgg, h]
    simp only [lookupAgg_setAgg_self _ _ _ hsome]
    rw [lookupAgg_setAgg_self _ _ _ (by
      rw [lookupAgg_setAgg_self _ _ _ hsome]; rfl)]
    simp [Option.getD]

/-- Updating one track id leaves every other track id untouched. -/
theorem lookupAgg_updateAgg_ne (tracks : List (String × TrackAgg))
    (tid artist title : String) (raw : Option ℚ) (start : ℚ) (tid' : String)
    (h : tid' ≠ tid) :
    lookupAgg (updateAgg tracks tid artist title raw start) tid' =
      lookupAgg tracks tid' := by
  rw [updateAgg.eq_def]
  cases hl : lookupAgg tracks tid with
  | none =>
    simp only
    split
    · rename_i agg2 hmid
      rw [lookupAgg_setAgg_ne _ _ _ _ h, lookupAgg_append]
      cases hl' : lookupAgg tracks tid' with
      | none => simp [lookupAgg, Ne.symm h]
      | some b => simp
    · rw [lookupAgg_append]
      cases hl' : lookupAgg tracks tid' with
      | none => simp [lookupAgg, Ne.symm h]
      | some b => simp
  | some a =>
    simp only
    split
    · rename_i agg2 hmid
      rw [lookupAgg_setAgg_ne _ _ _ _ h, lookupAgg_setAgg_ne _ _ _ _ h]
    · exact lookupAgg_setAgg_ne _ _ _ _ h

/-- A concrete matched response for track id T1 with no confidence figure,
as in the spec's aggregation example. -/
def exampleTrack : ShTrack :=
  { key := some "T1", id := none, shazam_id := none, shazamID := none,
    title := some "Song", subtitle := some "DJ", artist := none,
    confidence := none, score := none, probability := none }

/-- The response wrapping exampleTrack. -/
def exampleResp : ShResp := { track := some exampleTrack }

/-- C5: the aggregator's update equations.  On first sight of a track id the
aggregate is created with support 1, first = last = window start and
confidence (raw or 0.0) with derived min(1, 1/3) folded in; on a later
sight support increments, the start folds into the min/max seen bounds, a
present raw confidence maxes in, and the derived confidence
min(1, support/3) at the incremented support folds in.  Three no-confidence
results for T1 at starts 0, 20, 40 yield support 3, confidence 1,
first 0, last 40. -/
theorem C5_aggregator (tracks : List (String × TrackAgg))
    (tid artist title : String) (raw : Option ℚ) (start : ℚ) :
    (lookupAgg tracks tid = none →
      lookupAgg (updateAgg tracks tid artist title raw start) tid =
        some { shazam_track_id := tid, artist := artist, title := title,
               confidence_max := max (raw.getD 0) (min 1 (1 / 3)),
               support := 1, first_seen_sec := start,
               last_seen_sec := start }) ∧
    (∀ a : TrackAgg, lookupAgg tracks tid = some a →
      lookupAgg (updateAgg tracks tid artist title raw start) tid =
        some { shazam_track_id := a.shazam_track_id, artist := a.artist,
               title := a.title,
               confidence_max :=
                 max (max a.confidence_max (raw.getD a.confidence_max))
                   (min 1 (((a.support : ℚ) + 1) / 3)),
               support := a.support + 1,
               first_seen_sec := min a.first_seen_sec start,
               last_seen_sec := max a.last_seen_sec start }) ∧
    applyResp (applyResp (applyResp [] 0 (some exampleResp)) 20
        (some exampleResp)) 40 (some exampleResp) =
      [("T1", { shazam_track_id := "T1", artist := "DJ", title := "Song",
                confidence_max := 1, support := 3, first_seen_sec := 0,
                last_seen_sec := 40 })] := by
  refine ⟨lookupAgg_updateAgg_new tracks tid artist title raw start,
    fun a ha => lookupAgg_updateAgg_seen tracks tid artist title raw start a ha,
    ?_⟩
  norm_num [applyResp, updateAgg, lookupAgg, setAgg, extract_track_id,
    extract_artist_title, extract_confidence, firstTruthy, firstNum,
    pyTruthyStr, pyOrStr, exampleResp, exampleTrack, Option.getD, min_def,
    max_def, show "T1".isEmpty = false from rfl,
    show "DJ".isEmpty = false from rfl,
    show "Song".isEmpty = false from rfl]

/-- Concrete instance of the aggregator equations: first sight of a track
with no confidence at start 5. -/
theorem C5_aggregator_witness :
    lookupAgg (updateAgg [] "T" "A" "S" none 5) "T" =
      some { shazam_track_id := "T", artist := "A", title := "S",
             confidence_max := max ((none : Option ℚ).getD 0) (min 1 (1 / 3)),
             support := 1, first_seen_sec := 5, last_seen_sec := 5 } :=
  (C5_aggregator [] "T" "A" "S" none 5).1 rfl

/-! ## Stable sort lemmas (claim C6) -/

/-- Inserting permutes: the output is the input plus the new element. -/
theorem insertIntoSorted_perm {α : Type} (le : α → α → Bool) (a : α)
    (l : List α) : (insertIntoSorted le a l).Perm (a :: l) := by
  induction l with
  | nil => exact List.Perm.refl _
  | cons x xs ih =>
    rw [insertIntoSorted]
    by_cases h : le x a = true
    · rw [if_pos h]
      exact (ih.cons x).trans (List.Perm.swap a x xs)
    · rw [if_neg h]

/-- Folding insertions permutes into the accumulated elements. -/
theorem foldl_insert_perm {α : Type} (le : α → α → Bool) (l acc : List α) :
    (l.foldl (fun acc a => insertIntoSorted le a acc) acc).Perm
      (acc ++ l) := by
  induction l generalizing acc with
  | nil => simp
  | cons a l ih =>
    simp only [List.foldl_cons]
    refine (ih (insertIntoSorted le a acc)).trans ?_
    refine ((insertIntoSorted_perm le a acc).append_right l).trans ?_
    exact List.perm_middle.symm

/-- The stable sort is a permutation of its input. -/
theorem stableSort_perm {α : Type} (le : α → α → Bool) (l : List α) :
    (stableSort le l).Perm l := by
  simpa [stableSort] using foldl_insert_perm le l []

/-- Insertion into a sorted list stays sorted, for a total transitive
comparison. -/
theorem insertIntoSorted_sorted {α : Type} (le : α → α → Bool)
    (htot : ∀ x y, le x y = true ∨ le y x = true)
    (htrans : ∀ x y z, le x y = true → le y z = true → le x z = true)
    (a : α) (l : List α) (h : l.Pairwise fun x y => le x y = true) :
    (insertIntoSorted le a l).Pairwise fun x y => le x y = true := by
  induction l with
  | nil => simp [insertIntoSorted]
  | cons x xs ih =>
    rcases List.pairwise_cons.mp h with ⟨hx, hxs⟩
    rw [insertIntoSorted]
    by_cases hxa : le x a = true
    · rw [if_pos hxa]
      refine List.Pairwise.cons ?_ (ih hxs)
      intro y hy
      have hy' := (insertIntoSorted_perm le a xs).mem_iff.mp hy
      rcases List.mem_cons.mp hy' with rfl | hy2
      · exact hxa
      · exact hx y hy2
    · rw [if_neg hxa]
      have hax : le a x = true := (htot a x).resolve_right hxa
      refine List.Pairwise.cons ?_ (List.Pairwise.cons hx hxs)
      intro y hy
      rcases List.mem_cons.mp hy with rfl | hy2
      · exact hax
      · exact htrans a x y hax (hx y hy2)

/-- Folding insertions onto a sorted accumulator stays sorted. -/
theorem foldl_insert_sorted {α : Type} (le : α → α → Bool)
    (htot : ∀ x y, le x y = true ∨ le y x = true)
    (htrans : ∀ x y z, le x y = true → le y z = true → le x z = true)
    (l : List α) :
    ∀ acc : List α, (acc.Pairwise fun x y => le x y = true) →
      ((l.foldl (fun acc a => insertIntoSorted le a acc) acc).Pairwise
        fun x y => le x y = true) := by
  induction l with
  | nil => intro acc hacc; simpa using hacc
  | cons a l ih =>
    intro acc hacc
    simp only [List.foldl_cons]
    exact ih _ (insertIntoSorted_sorted le htot htrans a acc hacc)

/-- The stable sort output is sorted. -/
theorem stableSort_sorted {α : Type} (le : α → α → Bool)
    (htot : ∀ x y, le x y = true ∨ le y x = true)
    (htrans : ∀ x y z, le x y = true → le y z = true → le x z = true)
    (l : List α) :
    (stableSort le l).Pairwise fun x y => le x y = true :=
  foldl_insert_sorted le htot htrans l [] List.Pairwise.nil

/-- Insertion does not disturb the subsequence of elements of a foreign
key. -/
theorem filter_insertIntoSorted_ne {α κ : Type} [DecidableEq κ]
    (le : α → α → Bool) (keyf : α → κ) (a : α) (l : List α) (k : κ)
    (hka : keyf a ≠ k) :
    (insertIntoSorted le a l).filter (fun x => decide (keyf x = k)) =
      l.filter (fun x => decide (keyf x = k)) := by
  induction l with
  | nil => simp [insertIntoSorted, hka]
  | cons x xs ih =>
    rw [insertIntoSorted]
    by_cases hxa : le x a = true
    · rw [if_pos hxa]
      simp [List.filter_cons, ih]
    · rw [if_neg hxa]
      simp [List.filter_cons, hka]

/-- Insertion appends the new element after the existing elements of its own
key, provided the list is sorted and tied keys always compare. -/
theorem filter_insertIntoSorted_self {α κ : Type} [DecidableEq κ]
    (le : α → α → Bool) (keyf : α → κ)
    (htrans : ∀ x y z, le x y = true → le y z = true → le x z = true)
    (hties : ∀ x y, keyf x = keyf y → le x y = true)
    (a : α) (l : List α) (h : l.Pairwise fun x y => le x y = true) :
    (insertIntoSorted le a l).filter (fun x => decide (keyf x = keyf a)) =
      l.filter (fun x => decide (keyf x = keyf a)) ++ [a] := by
  induction l with
  | nil => simp [insertIntoSorted]
  | cons x xs ih =>
    rcases List.pairwise_cons.mp h with ⟨hx, hxs⟩
    rw [insertIntoSorted]
    by_cases hxa : le x a = true
    · rw [if_pos hxa]
      simp only [List.filter_cons, ih hxs]
      split
      · simp
      · rfl
    · rw [if_neg hxa]
      have hnil : (x :: xs).filter (fun y => decide (keyf y = keyf a)) = [] := by
        rw [List.filter_eq_nil_iff]
        intro y hy
        simp only [decide_eq_true_eq]
        intro hkey
        rcases List.mem_cons.mp hy with rfl | hy2
        · exact hxa (hties y a hkey)
        · exact hxa (htrans x y a (hx y hy2) (hties y a hkey))
      simp [List.filter_cons, hnil]

/-- Folding insertions preserves, for every key, the subsequence of that
key: the accumulated subsequence followed by the input subsequence. -/
theorem filter_foldl_insert {α κ : Type} [DecidableEq κ]
    (le : α → α → Bool) (keyf : α → κ)
    (htot : ∀ x y, le x y = true ∨ le y x = true)
    (htrans : ∀ x y z, le x y = true → le y z = true → le x z = true)
    (hties : ∀ x y, keyf x = keyf y → le x y = true)
    (l : List α) :
    ∀ (acc : List α) (k : κ), (acc.Pairwise fun x y => le x y = true) →
      (l.foldl (fun acc a => insertIntoSorted le a acc) acc).filter
          (fun x => decide (keyf x = k)) =
        acc.filter (fun x => decide (keyf x = k)) ++
          l.filter (fun x => decide (keyf x = k)) := by
  induction l with
  | nil => intro acc k hacc; simp
  | cons a l ih =>
    intro acc k hacc
    simp only [List.foldl_cons]
    rw [ih _ k (insertIntoSorted_sorted le htot htrans a acc hacc)]
    by_cases hk : keyf a = k
    · subst hk
      rw [filter_insertIntoSorted_self le keyf htrans hties a acc hacc]
      simp [List.filter_cons]
    · rw [filter_insertIntoSorted_ne le keyf a acc k hk]
      simp [List.filter_cons, hk]

/-- Stability of the stable sort: for every key, the subsequence of
elements of that key is exactly the input subsequence, in input order. -/
theorem filter_stableSort {α κ : Type} [DecidableEq κ]
    (le : α → α → Bool) (keyf : α → κ)
    (htot : ∀ x y, le x y = true ∨ le y x = true)
    (htrans : ∀ x y z, le x y = true → le y z = true → le x z = true)
    (hties : ∀ x y, keyf x = keyf y → le x y = true)
    (l : List α) (k : κ) :
    (stableSort le l).filter (fun x => decide (keyf x = k)) =
      l.filter (fun x => decide (keyf x = k)) := by
  simpa [stableSort] using
    filter_foldl_insert le keyf htot htrans hties l [] k List.Pairwise.nil

/-- The comparison of pipeline.py line 137 in Prop form: confidence
descending, then support descending. -/
theorem aggLE_iff (a b : String × TrackAgg) :
    aggLE a b = true ↔
      (b.2.confidence_max < a.2.confidence_max ∨
        (a.2.confidence_max = b.2.confidence_max ∧
          b.2.support ≤ a.2.support)) := by
  simp [aggLE, keyLE, rowKey, Bool.or_eq_true, Bool.and_eq_true,
    decide_eq_true_eq]

/-- The comparison is total. -/
theorem aggLE_total (a b : String × TrackAgg) :
    aggLE a b = true ∨ aggLE b a = true := by
  rw [aggLE_iff, aggLE_iff]
  rcases lt_trichotomy a.2.confidence_max b.2.confidence_max with h | h | h
  · exact Or.inr (Or.inl h)
  · rcases le_total b.2.support a.2.support with hs | hs
    · exact Or.inl (Or.inr ⟨h, hs⟩)
    · exact Or.inr (Or.inr ⟨h.symm, hs⟩)
  · exact Or.inl (Or.inl h)

/-- The comparison is transitive. -/
theorem aggLE_trans (a b c : String × TrackAgg) (h1 : aggLE a b = true)
    (h2 : aggLE b c = true) : aggLE a c = true := by
  rw [aggLE_iff] at h1 h2 ⊢
  rcases h1 with h1 | ⟨h1e, h1s⟩ <;> rcases h2 with h2 | ⟨h2e, h2s⟩
  · exact Or.inl (lt_trans h2 h1)
  · exact Or.inl (by rw [← h2e]; exact h1)
  · exact Or.inl (by rw [h1e]; exact h2)
  · exact Or.inr ⟨h1e.trans h2e, le_trans h2s h1s⟩

/-- Entries with equal sort keys compare in either order. -/
theorem aggLE_ties (a b : String × TrackAgg) (h : rowKey a = rowKey b) :
    aggLE a b = true := by
  rw [aggLE_iff]
  have he : a.2.confidence_max = b.2.confidence_max :=
    congrArg Prod.fst h
  have hs : a.2.support = b.2.support := congrArg Prod.snd h
  exact Or.inr ⟨he, le_of_eq hs.symm⟩

/-- C6: the report rows are the tracks dict sorted by confidence
descending then support descending (first two conjuncts: the output is a
permutation of the dict entries and is pairwise so ordered), ties keep the
dict's insertion order (third conjunct: for every sort key, the
subsequence of entries with that key is unchanged), and the spec's
concrete example T1 (1.0, 3), T2 (0.9, 1), T3 (1.0, 2) sorts to
T1, T3, T2. -/
theorem C6_report_ordering (tracks : List (String × TrackAgg)) :
    (sortTracks tracks).Perm tracks ∧
    (sortTracks tracks).Pairwise (fun a b =>
      b.2.confidence_max < a.2.confidence_max ∨
        (a.2.confidence_max = b.2.confidence_max ∧
          b.2.support ≤ a.2.support)) ∧
    (∀ k : ℚ × ℕ,
      (sortTracks tracks).filter (fun x => decide (rowKey x = k)) =
        tracks.filter (fun x => decide (rowKey x = k))) ∧
    sortTracks
        [("T1", { shazam_track_id := "T1", artist := "a1", title := "t1",
                  confidence_max := 1, support := 3, first_seen_sec := 0,
                  last_seen_sec := 0 }),
         ("T2", { shazam_track_id := "T2", artist := "a2", title := "t2",
                  confidence_max := 9 / 10, support := 1,
                  first_seen_sec := 0, last_seen_sec := 0 }),
         ("T3", { shazam_track_id := "T3", artist := "a3", title := "t3",
                  confidence_max := 1, support := 2, first_seen_sec := 0,
                  last_seen_sec := 0 })] =
      [("T1", { shazam_track_id := "T1", artist := "a1", title := "t1",
                confidence_max := 1, support := 3, first_seen_sec := 0,
                last_seen_sec := 0 }),
       ("T3", { shazam_track_id := "T3", artist := "a3", title := "t3",
                confidence_max := 1, support := 2, first_seen_sec := 0,
                last_seen_sec := 0 }),
       ("T2", { shazam_track_id := "T2", artist := "a2", title := "t2",
                confidence_max := 9 / 10, support := 1, first_seen_sec := 0,
                last_seen_sec := 0 })] := by
  refine ⟨stableSort_perm _ _, ?_, ?_, ?_⟩
  · exact (stableSort_sorted aggLE aggLE_total aggLE_trans tracks).imp
      (fun hab => (aggLE_iff _ _).mp hab)
  · intro k
    exact filter_stableSort aggLE rowKey aggLE_total aggLE_trans aggLE_ties
      tracks k
  · norm_num [sortTracks, stableSort, insertIntoSorted, aggLE, keyLE, rowKey]

/-! ## Completion-order invariance of the numeric aggregates (claim C10) -/

/-- The numeric fields of an aggregate: support, first/last seen, and
maximal confidence.  The artist/title strings are excluded: they are taken
from whichever result for the track happens to be applied first. -/
def numView (a : TrackAgg) : ℕ × ℚ × ℚ × ℚ :=
  (a.support, a.first_seen_sec, a.last_seen_sec, a.confidence_max)

/-- Two tracks dicts agree on all numeric aggregate fields. -/
def aggEquiv (t₁ t₂ : List (String × TrackAgg)) : Prop :=
  ∀ tid, (lookupAgg t₁ tid).map numView = (lookupAgg t₂ tid).map numView

/-- aggEquiv is reflexive. -/
theorem aggEquiv_refl (t : List (String × TrackAgg)) : aggEquiv t t :=
  fun _ => rfl

/-- aggEquiv is transitive. -/
theorem aggEquiv_trans {t₁ t₂ t₃ : List (String × TrackAgg)}
    (h₁ : aggEquiv t₁ t₂) (h₂ : aggEquiv t₂ t₃) : aggEquiv t₁ t₃ :=
  fun tid => (h₁ tid).trans (h₂ tid)

/-- The aggregator fold over a list of (window start, result) pairs in the
order the results complete. -/
def foldResults (l : List (ℚ × Option ShResp)) : List (String × TrackAgg) :=
  l.foldl (fun tr p => applyResp tr p.1 p.2) []

/-- Each result either leaves the tracks dict untouched (no match, or a
match failing the id/artist/title gate) or performs an updateAgg whose
arguments do not depend on the dict. -/
theorem applyResp_cases (r : Option ShResp) (s : ℚ) :
    (∀ t, applyResp t s r = t) ∨
    (∃ tid artist title conf,
      ∀ t, applyResp t s r = updateAgg t tid artist title conf s) := by
  cases r with
  | none => exact Or.inl (fun t => rfl)
  | some rr =>
    rcases h1 : pyTruthyStr (extract_track_id rr) with _ | tid
    · exact Or.inl (fun t => by simp [applyResp, h1])
    rcases h2 : pyTruthyStr (extract_artist_title rr).1 with _ | artist
    · exact Or.inl (fun t => by simp [applyResp, h1, h2])
    rcases h3 : pyTruthyStr (extract_artist_title rr).2 with _ | title
    · exact Or.inl (fun t => by simp [applyResp, h1, h2, h3])
    · exact Or.inr ⟨tid, artist, title, extract_confidence rr,
        fun t => by simp [applyResp, h1, h2, h3]⟩

/-- updateAgg sends aggEquiv dicts to aggEquiv dicts: the numeric update
reads only presence and numeric fields. -/
theorem updateAgg_congr (t₁ t₂ : List (String × TrackAgg))
    (tid artist title : String) (raw : Option ℚ) (start : ℚ)
    (h : aggEquiv t₁ t₂) :
    aggEquiv (updateAgg t₁ tid artist title raw start)
      (updateAgg t₂ tid artist title raw start) := by
  intro tid'
  by_cases htid : tid' = tid
  · subst htid
    have h0 := h tid'
    cases hl1 : lookupAgg t₁ tid' with
    | none =>
      have hl2 : lookupAgg t₂ tid' = none := by
        rw [hl1] at h0
        cases hl2 : lookupAgg t₂ tid' with
        | none => rfl
        | some b => rw [hl2] at h0; simp at h0
      rw [lookupAgg_updateAgg_new _ _ _ _ _ _ hl1,
          lookupAgg_updateAgg_new _ _ _ _ _ _ hl2]
    | some a1 =>
      rw [hl1] at h0
      cases hl2 : lookupAgg t₂ tid' with
      | none => rw [hl2] at h0; simp at h0
      | some a2 =>
        rw [hl2] at h0
        have hn : a1.support = a2.support ∧
            a1.first_seen_sec = a2.first_seen_sec ∧
            a1.last_seen_sec = a2.last_seen_sec ∧
            a1.confidence_max = a2.confidence_max := by
          simpa [numView, Prod.ext_iff] using h0
        rw [lookupAgg_updateAgg_seen _ _ _ _ _ _ _ hl1,
            lookupAgg_updateAgg_seen _ _ _ _ _ _ _ hl2]
        simp [numView, Prod.ext_iff, hn.1, hn.2.1, hn.2.2.1, hn.2.2.2]
  · rw [lookupAgg_updateAgg_ne _ _ _ _ _ _ _ htid,
        lookupAgg_updateAgg_ne _ _ _ _ _ _ _ htid]
    exact h tid'

/-- Two aggregator updates commute up to the numeric aggregate fields.
When the two updates concern the same track id, both orders yield support
+2, the same folded seen bounds, and the same confidence: the confidence is
a fold of max over the same collection of values (the raw confidences
present, the derived values at the two intermediate supports, and the 0.0
base when the track is new), and the 0.0 base is absorbed because a derived
value min(1, k/3) with k >= 1 is also folded in. -/
theorem updateAgg_comm (tr : List (String × TrackAgg))
    (tid1 ar1 ti1 : String) (raw1 : Option ℚ) (s1 : ℚ)
    (tid2 ar2 ti2 : String) (raw2 : Option ℚ) (s2 : ℚ) :
    aggEquiv
      (updateAgg (updateAgg tr tid1 ar1 ti1 raw1 s1) tid2 ar2 ti2 raw2 s2)
      (updateAgg (updateAgg tr tid2 ar2 ti2 raw2 s2) tid1 ar1 ti1 raw1 s1) := by
  intro tid
  by_cases h12 : tid1 = tid2
  · subst h12
    by_cases ht : tid = tid1
    · subst ht
      cases hl : lookupAgg tr tid with
      | none =>
        have hA1 := lookupAgg_updateAgg_new tr tid ar1 ti1 raw1 s1 hl
        have hA2 := lookupAgg_updateAgg_new tr tid ar2 ti2 raw2 s2 hl
        rw [lookupAgg_updateAgg_seen _ _ _ _ _ _ _ hA1,
            lookupAgg_updateAgg_seen _ _ _ _ _ _ _ hA2]
        have h013 : max (0 : ℚ) (min 1 (1 / 3)) = min 1 (1 / 3) := by
          norm_num
        rcases raw1 with _ | c1 <;> rcases raw2 with _ | c2 <;>
          · simp only [numView, Option.map_some, Option.getD,
              Option.some.injEq, Prod.mk.injEq, max_self, h013]
            repeat' apply And.intro
            all_goals first | rfl | ac_rfl
      | some a =>
        have hA1 := lookupAgg_updateAgg_seen tr tid ar1 ti1 raw1 s1 a hl
        have hA2 := lookupAgg_updateAgg_seen tr tid ar2 ti2 raw2 s2 a hl
        rw [lookupAgg_updateAgg_seen _ _ _ _ _ _ _ hA1,
            lookupAgg_updateAgg_seen _ _ _ _ _ _ _ hA2]
        rcases raw1 with _ | c1 <;> rcases raw2 with _ | c2 <;>
          · simp only [numView, Option.map_some, Option.getD,
              Option.some.injEq, Prod.mk.injEq, max_self]
            repeat' apply And.intro
            all_goals first | rfl | ac_rfl
    · rw [lookupAgg_updateAgg_ne _ _ _ _ _ _ _ ht,
          lookupAgg_updateAgg_ne _ _ _ _ _ _ _ ht,
          lookupAgg_updateAgg_ne _ _ _ _ _ _ _ ht,
          lookupAgg_updateAgg_ne _ _ _ _ _ _ _ ht]
  · by_cases ht1 : tid = tid1
    · subst ht1
      have hne2 : tid ≠ tid2 := h12
      rw [lookupAgg_updateAgg_ne _ _ _ _ _ _ _ hne2]
      cases hl : lookupAgg tr tid with
      | none =>
        have hl' : lookupAgg (updateAgg tr tid2 ar2 ti2 raw2 s2) tid = none := by
          rw [lookupAgg_updateAgg_ne _ _ _ _ _ _ _ hne2]; exact hl
        rw [lookupAgg_updateAgg_new _ _ _ _ _ _ hl,
            lookupAgg_updateAgg_new _ _ _ _ _ _ hl']
      | some a =>
        have hl' : lookupAgg (updateAgg tr tid2 ar2 ti2 raw2 s2) tid =
            some a := by
          rw [lookupAgg_updateAgg_ne _ _ _ _ _ _ _ hne2]; exact hl
        rw [lookupAgg_updateAgg_seen _ _ _ _ _ _ _ hl,
            lookupAgg_updateAgg_seen _ _ _ _ _ _ _ hl']
    · by_cases ht2 : tid = tid2
      · subst ht2
        have hne1 : tid ≠ tid1 := ht1
        rw [lookupAgg_updateAgg_ne _ _ _ _ _ _ _ hne1]
        cases hl : lookupAgg tr tid with
        | none =>
          have hl' : lookupAgg (updateAgg tr tid1 ar1 ti1 raw1 s1) tid =
              none := by
            rw [lookupAgg_updateAgg_ne _ _ _ _ _ _ _ hne1]; exact hl
          rw [lookupAgg_updateAgg_new _ _ _ _ _ _ hl,
              lookupAgg_updateAgg_new _ _ _ _ _ _ hl']
        | some a =>
          have hl' : lookupAgg (updateAgg tr tid1 ar1 ti1 raw1 s1) tid =
              some a := by
            rw [lookupAgg_updateAgg_ne _ _ _ _ _ _ _ hne1]; exact hl
          rw [lookupAgg_updateAgg_seen _ _ _ _ _ _ _ hl,
              lookupAgg_updateAgg_seen _ _ _ _ _ _ _ hl']
      · rw [lookupAgg_updateAgg_ne _ _ _ _ _ _ _ ht2,
            lookupAgg_updateAgg_ne _ _ _ _ _ _ _ ht1,
            lookupAgg_updateAgg_ne _ _ _ _ _ _ _ ht1,
            lookupAgg_updateAgg_ne _ _ _ _ _ _ _ ht2]

/-- applyResp sends aggEquiv dicts to aggEquiv dicts. -/
theorem applyResp_congr (t₁ t₂ : List (String × TrackAgg)) (s : ℚ)
    (r : Option ShResp) (h : aggEquiv t₁ t₂) :
    aggEquiv (applyResp t₁ s r) (applyResp t₂ s r) := by
  rcases applyResp_cases r s with hid | ⟨tid, artist, title, conf, hupd⟩
  · rw [hid t₁, hid t₂]; exact h
  · rw [hupd t₁, hupd t₂]
    exact updateAgg_congr t₁ t₂ tid artist title conf s h

/-- Applying two results in either order yields aggEquiv dicts. -/
theorem applyResp_comm (tr : List (String × TrackAgg)) (s1 : ℚ)
    (r1 : Option ShResp) (s2 : ℚ) (r2 : Option ShResp) :
    aggEquiv (applyResp (applyResp tr s1 r1) s2 r2)
      (applyResp (applyResp tr s2 r2) s1 r1) := by
  rcases applyResp_cases r1 s1 with hid1 | ⟨tid1, ar1, ti1, c1, hupd1⟩ <;>
    rcases applyResp_cases r2 s2 with hid2 | ⟨tid2, ar2, ti2, c2, hupd2⟩
  · simp only [hid1, hid2]; exact aggEquiv_refl tr
  · simp only [hid1, hupd2]; exact aggEquiv_refl _
  · simp only [hupd1, hid2]; exact aggEquiv_refl _
  · simp only [hupd1, hupd2]
    exact updateAgg_comm tr tid1 ar1 ti1 c1 s1 tid2 ar2 ti2 c2 s2

/-- The result fold respects aggEquiv in its accumulator. -/
theorem foldResults_congr (l : List (ℚ × Option ShResp))
    (t₁ t₂ : List (String × TrackAgg)) (h : aggEquiv t₁ t₂) :
    aggEquiv (l.foldl (fun tr p => applyResp tr p.1 p.2) t₁)
      (l.foldl (fun tr p => applyResp tr p.1 p.2) t₂) := by
  induction l generalizing t₁ t₂ with
  | nil => exact h
  | cons p l ih =>
    simp only [List.foldl_cons]
    exact ih _ _ (applyResp_congr t₁ t₂ p.1 p.2 h)

/-- Folding a permuted result stream from any accumulator yields aggEquiv
dicts. -/
theorem foldResults_perm (l₁ l₂ : List (ℚ × Option ShResp))
    (h : l₁.Perm l₂) :
    ∀ tr : List (String × TrackAgg),
      aggEquiv (l₁.foldl (fun tr p => applyResp tr p.1 p.2) tr)
        (l₂.foldl (fun tr p => applyResp tr p.1 p.2) tr) := by
  induction h with
  | nil => intro tr; exact aggEquiv_refl _
  | cons x h ih =>
    intro tr
    simp only [List.foldl_cons]
    exact ih _
  | swap x y l =>
    intro tr
    simp only [List.foldl_cons]
    exact foldResults_congr l _ _ (applyResp_comm tr y.1 y.2 x.1 x.2)
  | trans h1 h2 ih1 ih2 =>
    intro tr
    exact aggEquiv_trans (ih1 tr) (ih2 tr)

/-- C10: for a fixed multiset of per-chunk results, the numeric fields of
every track's final aggregate (support, first/last seen, confidence_max)
are invariant under permutation of the order in which the results are
applied; only the report tie-break ordering and the recorded artist/title
strings can depend on completion order. -/
theorem C10_order_invariance (l₁ l₂ : List (ℚ × Option ShResp))
    (h : l₁.Perm l₂) (tid : String) :
    (lookupAgg (foldResults l₁) tid).map numView =
      (lookupAgg (foldResults l₂) tid).map numView :=
  foldResults_perm l₁ l₂ h [] tid

/-- Concrete instance of order invariance: the two results of the
aggregation example applied in either order give the same numeric
aggregate for T1. -/
theorem C10_order_invariance_witness :
    (lookupAgg (foldResults
        [(0, some exampleResp), (20, some exampleResp)]) "T1").map numView =
      (lookupAgg (foldResults
        [(20, some exampleResp), (0, some exampleResp)]) "T1").map numView :=
  C10_order_invariance _ _
    (List.Perm.swap (20, some exampleResp) (0, some exampleResp) []) "T1"

/-! ## Concurrency bound (claim C8) -/

/-- Setting one list position exchanges its contribution to a count. -/
theorem countP_set_exchange (p : Stage → Bool) (l : List Stage) :
    ∀ (i : ℕ) (x a : Stage), l.get? i = some x →
      (l.set i a).countP p + (if p x then 1 else 0) =
        l.countP p + (if p a then 1 else 0) := by
  induction l with
  | nil => intro i x a h; simp at h
  | cons y ys ih =>
    intro i x a h
    cases i with
    | zero =>
      simp only [List.get?_cons_zero, Option.some.injEq] at h
      subst h
      cases hpy : p y <;> cases hpa : p a <;>
        simp [List.set, List.countP_cons, hpy, hpa] <;> omega
    | succ j =>
      simp only [List.get?_cons_succ] at h
      have h2 := ih j x a h
      cases hpx : p x <;> cases hpa : p a <;> cases hpy : p y <;>
        (simp [List.set, List.countP_cons, hpx, hpa, hpy] at h2 ⊢ <;>
          omega) <;> omega

/-- No oracle call is outstanding at the start of a run. -/
theorem countOracle_replicate (n : ℕ) :
    countOracle (List.replicate n Stage.look) = 0 := by
  induction n with
  | zero => rfl
  | succ m ih =>
    simp only [countOracle, List.replicate_succ, List.countP_cons] at ih ⊢
    simp [show (Stage.look == Stage.oracle) = false from rfl, ih]

/-- The semaphore invariant: outstanding oracle calls plus available
permits always total the configured limit. -/
theorem sched_invariant (limit n : ℕ) (s : Sched)
    (h : SchedReachable limit n s) :
    countOracle s.tasks + s.avail = limit := by
  induction h with
  | refl => simp [initSched, countOracle_replicate]
  | tail hsteps hstep ih =>
    rename_i b c
    cases hstep with
    | cacheHit i hi =>
      have hc := countP_set_exchange (fun st => st == Stage.oracle)
        b.tasks i Stage.look Stage.done hi
      simp [show (Stage.look == Stage.oracle) = false from rfl,
        show (Stage.done == Stage.oracle) = false from rfl] at hc
      show countOracle (b.tasks.set i Stage.done) + b.avail = limit
      simp only [countOracle] at ih ⊢
      omega
    | cacheMiss i hi =>
      have hc := countP_set_exchange (fun st => st == Stage.oracle)
        b.tasks i Stage.look Stage.mat hi
      simp [show (Stage.look == Stage.oracle) = false from rfl,
        show (Stage.mat == Stage.oracle) = false from rfl] at hc
      show countOracle (b.tasks.set i Stage.mat) + b.avail = limit
      simp only [countOracle] at ih ⊢
      omega
    | materialized i hi =>
      have hc := countP_set_exchange (fun st => st == Stage.oracle)
        b.tasks i Stage.mat Stage.wait hi
      simp [show (Stage.mat == Stage.oracle) = false from rfl,
        show (Stage.wait == Stage.oracle) = false from rfl] at hc
      show countOracle (b.tasks.set i Stage.wait) + b.avail = limit
      simp only [countOracle] at ih ⊢
      omega
    | acquire i hi ha =>
      have hc := countP_set_exchange (fun st => st == Stage.oracle)
        b.tasks i Stage.wait Stage.oracle hi
      simp [show (Stage.wait == Stage.oracle) = false from rfl,
        show (Stage.oracle == Stage.oracle) = true from rfl] at hc
      show countOracle (b.tasks.set i Stage.oracle) + (b.avail - 1) = limit
      simp only [countOracle] at ih ⊢
      omega
    | finish i hi =>
      have hc := countP_set_exchange (fun st => st == Stage.oracle)
        b.tasks i Stage.oracle Stage.done hi
      simp [show (Stage.oracle == Stage.oracle) = true from rfl,
        show (Stage.done == Stage.oracle) = false from rfl] at hc
      show countOracle (b.tasks.set i Stage.done) + (b.avail + 1) = limit
      simp only [countOracle] at ih ⊢
      omega

/-- C8: in every state reachable during a run, at most concurrency_limit
oracle calls are outstanding (first two conjuncts: the count is bounded
because outstanding calls plus free permits always total the limit), and
only the oracle call is gated: the cache-miss and materialization steps
are enabled with no demand on the semaphore and leave its permit count
unchanged (last two conjuncts). -/
theorem C8_concurrency_bound (limit n : ℕ) (hlim : 1 ≤ limit) (s : Sched)
    (h : SchedReachable limit n s) :
    countOracle s.tasks ≤ limit ∧
    countOracle s.tasks + s.avail = limit ∧
    (∀ (u : Sched) (i : ℕ), u.tasks.get? i = some Stage.look →
      SchedStep u { tasks := u.tasks.set i Stage.mat, avail := u.avail }) ∧
    (∀ (u : Sched) (i : ℕ), u.tasks.get? i = some Stage.mat →
      SchedStep u { tasks := u.tasks.set i Stage.wait, avail := u.avail }) := by
  have hinv := sched_invariant limit n s h
  exact ⟨by omega, hinv,
    fun u i hu => SchedStep.cacheMiss u i hu,
    fun u i hu => SchedStep.materialized u i hu⟩

/-- Concrete instance of the concurrency bound, at the reachable state of a
one-window run with limit 1 whose task holds the oracle slot. -/
theorem C8_concurrency_bound_witness :
    countOracle [Stage.oracle] ≤ 1 ∧
    countOracle [Stage.oracle] + 0 = 1 ∧
    (∀ (u : Sched) (i : ℕ), u.tasks.get? i = some Stage.look →
      SchedStep u { tasks := u.tasks.set i Stage.mat, avail := u.avail }) ∧
    (∀ (u : Sched) (i : ℕ), u.tasks.get? i = some Stage.mat →
      SchedStep u { tasks := u.tasks.set i Stage.wait, avail := u.avail }) := by
  have h1 : SchedReachable 1 1 { tasks := [Stage.mat], avail := 1 } :=
    Relation.ReflTransGen.tail Relation.ReflTransGen.refl
      (SchedStep.cacheMiss (initSched 1 1) 0 rfl)
  have h2 : SchedReachable 1 1 { tasks := [Stage.wait], avail := 1 } :=
    Relation.ReflTransGen.tail h1
      (SchedStep.materialized { tasks := [Stage.mat], avail := 1 } 0 rfl)
  have hreach : SchedReachable 1 1 { tasks := [Stage.oracle], avail := 0 } :=
    Relation.ReflTransGen.tail h2
      (SchedStep.acquire { tasks := [Stage.wait], avail := 1 } 0 rfl
        Nat.one_pos)
  exact C8_concurrency_bound 1 1 le_rfl _ hreach

end DJTrack
